import Mathlib

/-!
# random_prices: a shallow embedding of `script.js`

The page script keeps one global, `priceHistory`, and one `localStorage` key of the
same name.  `generatePrice` reads the price field, draws `Math.random() * 100`, picks one
of three multipliers, records the result and shows it; `window.onload` restores the history
from storage.

Modelling choices.

* JavaScript numbers are `JSNum`: `NaN`, the two infinities, or a finite value held as the
  rational it equals (the two zeros are one value).  A product is the exact product rounded to
  the nearest binary64 value, ties to even, with overflow to an infinity (`roundDouble`).  The
  literals `1.5`, `2.5`, `40` and `100` are binary64 values; the literal `0.1` is compared as
  the rational `1/10`, below which the same binary64 values lie as below the literal.
* JavaScript values are `JSVal`.  Only values that the script can hold are covered:
  primitives, `Date` objects, arrays and plain objects.
* The text kept in `localStorage` is `Stored`: either the JSON text of a document
  (`Stored.json`), or text that is not JSON (`Stored.malformed`).  `JSON.stringify` and
  `JSON.parse` are modelled on documents, so that their lossy conversions (dates become
  strings, `NaN` and the infinities become `null`) are kept, while the concrete syntax is not;
  a number in a document stands for the binary64 value that `JSON.parse` reads from its text.
  A property list binds each key once; where a key is repeated, the last binding is read, as
  `JSON.parse` resolves a repeated key.
* `Date.prototype.toISOString` belongs to the host; it is the parameter `toISOString`.
* What the script reads from its surroundings on one call is `Inputs`.
* The DOM is not modelled.  The page elements are taken to exist; each call of `alert`,
  `showResult`, `showHistory` and `addEventListener` is recorded in an effect trace, and
  `showResult`/`showHistory` are modelled as far as they can throw.
-/

namespace RandomPrices

/-! ## Numbers -/

/-- A JavaScript number. -/
inductive JSNum where
  | nan
  | posInf
  | negInf
  | fin (q : ℚ)
  deriving DecidableEq

namespace JSNum

/-- The truth value of a number in a condition (`ToBoolean`): `NaN` and zero are falsy. -/
def truthy : JSNum → Bool
  | nan => false
  | posInf => true
  | negInf => true
  | fin q => decide (q ≠ 0)

/-- The comparison `a <= b`; every comparison with `NaN` is false. -/
def le : JSNum → JSNum → Bool
  | nan, _ => false
  | _, nan => false
  | negInf, _ => true
  | _, posInf => true
  | posInf, _ => false
  | _, negInf => false
  | fin a, fin b => decide (a ≤ b)

/-- The comparison `a < b`; every comparison with `NaN` is false. -/
def lt : JSNum → JSNum → Bool
  | nan, _ => false
  | _, nan => false
  | _, negInf => false
  | negInf, _ => true
  | posInf, _ => false
  | fin _, posInf => true
  | fin a, fin b => decide (a < b)

/-- The sign of a rational as -1, 0 or 1. -/
def sgn (q : ℚ) : Int :=
  if q < 0 then -1 else if q = 0 then 0 else 1

/-- An infinity of the given sign; zero times infinity is `NaN`. -/
def infOfSign (s : Int) : JSNum :=
  if s < 0 then negInf else if s = 0 then nan else posInf

/-- The number of binary digits of `n`. -/
def bitLength (n : Nat) : Nat :=
  (Nat.toDigits 2 n).length

/-- Whether `d * 2 ^ e ≤ n`, for an exponent of either sign. -/
def scaledLe (d : Nat) (e : Int) (n : Nat) : Bool :=
  if 0 ≤ e then decide (d <<< e.toNat ≤ n) else decide (d ≤ n <<< (-e).toNat)

/-- The binary64 value nearest to the positive fraction `n / d`, ties to even, as a pair
`(m, k)` standing for `m * 2 ^ k`; `none` when the rounded value exceeds the largest finite
binary64 value.  With `e` the exponent of the leading bit of `n / d`, the unit in the last place
is `2 ^ k` for `k = max e (-1022) - 52`, and `m` is `n / d / 2 ^ k` rounded to an integer. -/
def roundMagnitude (n d : Nat) : Option (Nat × Int) :=
  if n = 0 then some (0, 0) else
  -- the exponent of the leading bit: `2 ^ e ≤ n / d < 2 ^ (e + 1)`
  let e0 : Int := (bitLength n : Int) - (bitLength d : Int)
  let e : Int := if scaledLe d e0 n then e0 else e0 - 1
  -- 53 significant bits, and no unit below `2 ^ (-1074)` (subnormal range)
  let k : Int := max e (-1022) - 52
  -- `n / d / 2 ^ k` as the fraction `num / den`
  let num := if k < 0 then n <<< (-k).toNat else n
  let den := if k < 0 then d else d <<< k.toNat
  let f := num / den
  let r := num % den
  -- nearest integer, a tie going to the even one
  let m :=
    if 2 * r < den then f
    else if den < 2 * r then f + 1
    else if f % 2 = 0 then f else f + 1
  -- `m ≤ 2 ^ 53`; the value overflows when `m * 2 ^ k` reaches `2 ^ 1024`
  if k < 971 ∨ (k = 971 ∧ m < 2 ^ 53) then some (m, k) else none

/-- The binary64 value that a real result `q` is rounded to (round to nearest, ties to even),
an infinity on overflow. -/
def roundDouble (q : ℚ) : JSNum :=
  match roundMagnitude q.num.natAbs q.den with
  | some (m, k) => fin ((if q < 0 then -(m : ℚ) else (m : ℚ)) * 2 ^ k)
  | none => if q < 0 then negInf else posInf

/-- The product `a * b`: the exact product of two finite numbers, rounded. -/
def mul : JSNum → JSNum → JSNum
  | nan, _ => nan
  | _, nan => nan
  | posInf, posInf => posInf
  | posInf, negInf => negInf
  | negInf, posInf => negInf
  | negInf, negInf => posInf
  | posInf, fin b => infOfSign (sgn b)
  | negInf, fin b => infOfSign (-sgn b)
  | fin a, posInf => infOfSign (sgn a)
  | fin a, negInf => infOfSign (-sgn a)
  | fin a, fin b => roundDouble (a * b)

/-- Whether the number is finite (`Number.isFinite`). -/
def isFinite : JSNum → Bool
  | fin _ => true
  | _ => false

end JSNum

/-! ## Values and JSON documents -/

/-- A JavaScript value. -/
inductive JSVal where
  | undefined
  | null
  | bool (b : Bool)
  | num (n : JSNum)
  | str (s : String)
  | date (ms : Int)
  | arr (items : List JSVal)
  | obj (fields : List (String × JSVal))

/-- A JSON document. -/
inductive Json where
  | null
  | bool (b : Bool)
  | num (q : ℚ)
  | str (s : String)
  | arr (items : List Json)
  | obj (fields : List (String × Json))

/-- The errors the script can meet. -/
inductive JSError where
  | typeError
  | syntaxError
  | storageError
  deriving DecidableEq

/-- The document `JSON.stringify` writes for a number: `NaN` and the infinities are written
as `null`. -/
def JSNum.toJson : JSNum → Json
  | .fin q => .num q
  | _ => .null

mutual
/-- The value `JSON.parse` builds for a document. -/
def Json.toJS : Json → JSVal
  | .null => .null
  | .bool b => .bool b
  | .num q => .num (.fin q)
  | .str s => .str s
  | .arr items => .arr (Json.toJSList items)
  | .obj fields => .obj (Json.toJSFields fields)
/-- The elements of a parsed array. -/
def Json.toJSList : List Json → List JSVal
  | [] => []
  | x :: xs => x.toJS :: Json.toJSList xs
/-- The properties of a parsed object. -/
def Json.toJSFields : List (String × Json) → List (String × JSVal)
  | [] => []
  | (k, v) :: fs => (k, v.toJS) :: Json.toJSFields fs
end

section Host

variable (toISOString : Int → String)

mutual
/-- The document `JSON.stringify` writes for a value (`SerializeJSONProperty`); `none` where
it writes nothing (`undefined`). -/
def serialize : JSVal → Option Json
  | .undefined => none
  | .null => some .null
  | .bool b => some (.bool b)
  | .num n => some n.toJson
  | .str s => some (.str s)
  | .date ms => some (.str (toISOString ms))
  | .arr items => some (.arr (serializeList items))
  | .obj fields => some (.obj (serializeFields fields))
/-- Array elements: an element that writes nothing is written as `null`. -/
def serializeList : List JSVal → List Json
  | [] => []
  | x :: xs => (serialize x).getD .null :: serializeList xs
/-- Object properties: a property that writes nothing is left out. -/
def serializeFields : List (String × JSVal) → List (String × Json)
  | [] => []
  | (k, v) :: fs =>
    match serialize v with
    | some j => (k, j) :: serializeFields fs
    | none => serializeFields fs
end

end Host

/-! ## Property reads and conversions used by the display functions -/

/-- The value of property `key` in a property list; the last binding of a key is the one an
object built by `JSON.parse` keeps. -/
def lookupLast (key : String) : List (String × JSVal) → Option JSVal
  | [] => none
  | (k, v) :: fs =>
    match lookupLast key fs with
    | some w => some w
    | none => if k = key then some v else none

/-- The property read `v.key` for a key that arrays, strings and dates do not have: reading
from `undefined` or `null` throws, a missing property is `undefined`. -/
def getProp (v : JSVal) (key : String) : Except JSError JSVal :=
  match v with
  | .undefined => .error .typeError
  | .null => .error .typeError
  | .obj fields => .ok ((lookupLast key fields).getD .undefined)
  | _ => .ok .undefined

/-- The call `v.toFixed(2)`: only numbers have the method. -/
def toFixed : JSVal → Except JSError Unit
  | .num _ => .ok ()
  | _ => .error .typeError

mutual
/-- Whether the value converts to a primitive, as `new Date(v)` and a template literal need:
a plain object whose own `toString` is not a function does not, and an array converts by
joining its converted elements. -/
def convertible : JSVal → Bool
  | .arr items => convertibleList items
  | .obj fields => !(fields.any fun f => f.1 == "toString")
  | _ => true
/-- Whether every element converts. -/
def convertibleList : List JSVal → Bool
  | [] => true
  | x :: xs => convertible x && convertibleList xs
end

/-- The conversion of a value inside a template literal, or by `new Date(v)`. -/
def toText (v : JSVal) : Except JSError Unit :=
  if convertible v then .ok () else .error .typeError

/-! ## State, inputs and effects -/

/-- The text held under the key `priceHistory` in `localStorage`. -/
inductive Stored where
  | json (doc : Json)
  | malformed (text : String)

/-- The truth value of a stored text in a condition: only the empty string is falsy. -/
def Stored.truthy : Stored → Bool
  | .json _ => true
  | .malformed text => decide (text ≠ "")

/-- The call `JSON.parse(text)`. -/
def jsonParse : Stored → Except JSError JSVal
  | .json doc => .ok doc.toJS
  | .malformed _ => .error .syntaxError

/-- The state that outlives a call: the global `priceHistory` and the storage key. -/
structure World where
  priceHistory : JSVal
  storage : Option Stored

/-- What one call of `generatePrice` reads from its surroundings. -/
structure Inputs where
  /-- The value of `parseFloat(document.getElementById('originalPrice').value)`. -/
  parsed : JSNum
  /-- The value of `Math.random()`, a binary64 value in `[0, 1)`. -/
  mathRandom : ℚ
  /-- The time value of `new Date()`, in milliseconds since the epoch. -/
  now : Int
  /-- Whether `localStorage.setItem` throws. -/
  setItemThrows : Bool

/-- A call the script makes to the page. -/
inductive Effect where
  | alert (message : String)
  | showResult (result : JSVal)
  | showHistory (history : JSVal)
  | addKeypressListener

/-- How a handler ends: the state it leaves, the calls it made in order, and the exception
that ended it, if any. -/
structure Outcome where
  world : World
  effects : List Effect
  thrown : Option JSError

/-! ## The script -/

/-- The body of `showResult(result)`, as far as it can throw. -/
def showResult (result : JSVal) : Except JSError Unit := do
  toFixed (← getProp result "originalPrice")
  toFixed (← getProp result "finalPrice")
  toText (← getProp result "appliedRule")
  toText (← getProp result "timestamp")

/-- The callback of `priceHistory.forEach` in `showHistory`, as far as it can throw. -/
def showEntry (entry : JSVal) : Except JSError Unit := do
  toText (← getProp entry "timestamp")
  toFixed (← getProp entry "originalPrice")
  toFixed (← getProp entry "finalPrice")
  toText (← getProp entry "appliedRule")

/-- The loop `priceHistory.forEach(entry => ...)` over the elements of an array. -/
def showEntries : List JSVal → Except JSError Unit
  | [] => .ok ()
  | entry :: rest => do
    showEntry entry
    showEntries rest

/-- The test `priceHistory.length === 0`. -/
def lengthIsZero : JSVal → Except JSError Bool
  | .undefined => .error .typeError
  | .null => .error .typeError
  | .arr items => .ok items.isEmpty
  | .str s => .ok (decide (s = ""))
  | .obj fields =>
    match lookupLast "length" fields with
    | some (.num (.fin q)) => .ok (decide (q = 0))
    | _ => .ok false
  | _ => .ok false

/-- The body of `showHistory()` for the current value of `priceHistory`, as far as it can
throw. -/
def showHistory (priceHistory : JSVal) : Except JSError Unit := do
  if (← lengthIsZero priceHistory) then
    return ()
  match priceHistory with
  | .arr items => showEntries items
  | _ => .error .typeError

/-- The branch of `generatePrice` on the draw: the final price and the rule label. -/
def applyRule (originalPrice random : JSNum) : JSNum × String :=
  if random.lt (.fin (1 / 10)) then
    (originalPrice, "Original Price (0.1%)")
  else if random.lt (.fin 40) then
    (originalPrice.mul (.fin (3 / 2)), "1.5x Original Price (39.9%)")
  else
    (originalPrice.mul (.fin (5 / 2)), "2.5x Original Price (60%)")

/-- The object literal `result` of `generatePrice`. -/
def priceResult (timestamp : Int) (originalPrice finalPrice : JSNum) (appliedRule : String) :
    JSVal :=
  .obj [("timestamp", .date timestamp), ("originalPrice", .num originalPrice),
    ("finalPrice", .num finalPrice), ("appliedRule", .str appliedRule)]

/-- The guard of `generatePrice`: `!originalPrice || originalPrice <= 0`. -/
def rejects (originalPrice : JSNum) : Bool :=
  !originalPrice.truthy || originalPrice.le (.fin 0)

section Host

variable (toISOString : Int → String)

/-- The text `JSON.stringify(v)` as `setItem` stores it; `setItem` stores the string
`undefined` when `JSON.stringify` returns `undefined`. -/
def jsonStringify (v : JSVal) : Stored :=
  match serialize toISOString v with
  | some doc => .json doc
  | none => .malformed "undefined"

/-- The function `generatePrice()`. -/
def generatePrice (w : World) (i : Inputs) : Outcome :=
  let originalPrice := i.parsed
  if rejects originalPrice then
    { world := w, effects := [.alert "Please enter a valid price"], thrown := none }
  else
    let random := (JSNum.fin i.mathRandom).mul (.fin 100)
    let (finalPrice, appliedRule) := applyRule originalPrice random
    let result := priceResult i.now originalPrice finalPrice appliedRule
    -- priceHistory.unshift(result)
    match w.priceHistory with
    | .arr items =>
      let w1 : World := { w with priceHistory := .arr (result :: items) }
      -- localStorage.setItem('priceHistory', JSON.stringify(priceHistory.slice(0, 50)))
      if i.setItemThrows then
        { world := w1, effects := [], thrown := some .storageError }
      else
        let w2 : World :=
          { w1 with storage := some (jsonStringify toISOString (.arr ((result :: items).take 50))) }
        match showResult result with
        | .error e => { world := w2, effects := [.showResult result], thrown := some e }
        | .ok _ =>
          match showHistory w2.priceHistory with
          | .error e =>
            { world := w2, effects := [.showResult result, .showHistory w2.priceHistory],
              thrown := some e }
          | .ok _ =>
            { world := w2, effects := [.showResult result, .showHistory w2.priceHistory],
              thrown := none }
    | _ => { world := w, effects := [], thrown := some .typeError }

end Host

/-- The handler `window.onload`. -/
def onLoad (w : World) : Outcome :=
  -- const savedHistory = localStorage.getItem('priceHistory')
  match w.storage with
  | some savedHistory =>
    if savedHistory.truthy then
      match jsonParse savedHistory with
      | .error e => { world := w, effects := [], thrown := some e }
      | .ok parsed =>
        let w1 : World := { w with priceHistory := parsed }
        match showHistory w1.priceHistory with
        | .error e => { world := w1, effects := [.showHistory parsed], thrown := some e }
        | .ok _ =>
          { world := w1, effects := [.showHistory parsed, .addKeypressListener], thrown := none }
    else
      { world := w, effects := [.addKeypressListener], thrown := none }
  | none => { world := w, effects := [.addKeypressListener], thrown := none }

/-- The state of a freshly loaded page over the given storage: `let priceHistory = []`. -/
def freshPage (storage : Option Stored) : World :=
  { priceHistory := .arr [], storage := storage }

/-! ## Sequences of calls -/

section Host

variable (toISOString : Int → String)

/-- The state after a sequence of `generatePrice` calls, each a handler run of its own. -/
def generateAll (w : World) : List Inputs → World
  | [] => w
  | i :: rest => generateAll (generatePrice toISOString w i).world rest

/-- The result object that a call with inputs `i` builds once the guard has let it pass. -/
def resultOf (i : Inputs) : JSVal :=
  priceResult i.now i.parsed (applyRule i.parsed ((JSNum.fin i.mathRandom).mul (.fin 100))).1
    (applyRule i.parsed ((JSNum.fin i.mathRandom).mul (.fin 100))).2

end Host

/-- The entries of the array persisted under the storage key; none when nothing is stored or
the stored text is not an array. -/
def persistedEntries (w : World) : List Json :=
  match w.storage with
  | some (.json (.arr entries)) => entries
  | _ => []

/-- The elements of the in-memory history when it is an array; none otherwise. -/
def inMemoryEntries (w : World) : List JSVal :=
  match w.priceHistory with
  | .arr entries => entries
  | _ => []

/-! ## A host clock format for the examples -/

/-- The decimal digits of `n`, padded with zeros on the left to at least `width` digits. -/
def padZeros (width n : Nat) : String :=
  let digits := Nat.toDigits 10 n
  String.mk (List.replicate (width - digits.length) '0' ++ digits)

/-- The string `Date.prototype.toISOString` gives for the time value `ms` (milliseconds since
the epoch, UTC, proleptic Gregorian calendar). -/
def isoString (ms : Int) : String :=
  let day := Int.fdiv ms 86400000
  let msOfDay := (Int.fmod ms 86400000).toNat
  let z := day + 719468
  let era := Int.fdiv z 146097
  let doe := (z - era * 146097).toNat
  let yoe := (doe - doe / 1460 + doe / 36524 - doe / 146096) / 365
  let doy := doe - (365 * yoe + yoe / 4 - yoe / 100)
  let mp := (5 * doy + 2) / 153
  let d := doy - (153 * mp + 2) / 5 + 1
  let m := if mp < 10 then mp + 3 else mp - 9
  let y : Int := (yoe : Int) + era * 400 + (if m ≤ 2 then 1 else 0)
  let year :=
    if 0 ≤ y ∧ y ≤ 9999 then padZeros 4 y.toNat
    else (if y < 0 then "-" else "+") ++ padZeros 6 y.natAbs
  year ++ "-" ++ padZeros 2 m ++ "-" ++ padZeros 2 d ++ "T" ++
    padZeros 2 (msOfDay / 3600000) ++ ":" ++ padZeros 2 (msOfDay / 60000 % 60) ++ ":" ++
    padZeros 2 (msOfDay / 1000 % 60) ++ "." ++ padZeros 3 (msOfDay % 1000) ++ "Z"

/-! ## Basic facts -/

theorem rejects_fin (q : ℚ) : rejects (.fin q) = decide (q ≤ 0) := by
  by_cases h : q = 0
  · subst h; simp [rejects, JSNum.truthy, JSNum.le]
  · by_cases h2 : q ≤ 0 <;> simp [rejects, JSNum.truthy, JSNum.le, h, h2]

theorem rejects_fin_pos {q : ℚ} (h : 0 < q) : rejects (.fin q) = false := by
  rw [rejects_fin]; simpa using h

theorem rejects_posInf : rejects .posInf = false := by
  simp [rejects, JSNum.truthy, JSNum.le]

theorem showResult_priceResult (t : Int) (a b : JSNum) (rule : String) :
    showResult (priceResult t a b rule) = .ok () := by
  simp [showResult, priceResult, getProp, lookupLast, toFixed, toText, convertible,
    bind, Except.bind]

theorem showEntry_priceResult (t : Int) (a b : JSNum) (rule : String) :
    showEntry (priceResult t a b rule) = .ok () := by
  simp [showEntry, priceResult, getProp, lookupLast, toFixed, toText, convertible,
    bind, Except.bind]

theorem jsonStringify_arr (toISOString : Int → String) (items : List JSVal) :
    jsonStringify toISOString (.arr items) = .json (.arr (serializeList toISOString items)) := by
  simp [jsonStringify, serialize]

/-- What `generatePrice` leaves behind once the guard has let the input pass, the history is an
array and the write succeeds. -/
theorem generatePrice_world_of_accept (toISOString : Int → String) (items : List JSVal)
    (storage : Option Stored) (i : Inputs) (hacc : rejects i.parsed = false)
    (hset : i.setItemThrows = false) :
    (generatePrice toISOString ⟨.arr items, storage⟩ i).world =
      ⟨.arr (resultOf i :: items),
        some (.json (.arr (serializeList toISOString ((resultOf i :: items).take 50))))⟩ := by
  simp only [generatePrice, hacc, hset, resultOf, jsonStringify_arr, showResult_priceResult]
  simp only [Bool.false_eq_true, if_false]
  split <;> rfl

/-- The in-memory history after a call that passes the guard, whether or not the write
succeeds. -/
theorem generatePrice_history_of_accept (toISOString : Int → String) (items : List JSVal)
    (storage : Option Stored) (i : Inputs) (hacc : rejects i.parsed = false) :
    (generatePrice toISOString ⟨.arr items, storage⟩ i).world.priceHistory =
      .arr (resultOf i :: items) := by
  simp only [generatePrice, hacc, resultOf, jsonStringify_arr, showResult_priceResult]
  simp only [Bool.false_eq_true, if_false]
  split <;> [rfl; (split <;> rfl)]

/-- The calls made by `generatePrice` once the guard has let the input pass, the history is an
array and the write succeeds. -/
theorem generatePrice_effects_of_accept (toISOString : Int → String) (items : List JSVal)
    (storage : Option Stored) (i : Inputs) (hacc : rejects i.parsed = false)
    (hset : i.setItemThrows = false) :
    (generatePrice toISOString ⟨.arr items, storage⟩ i).effects =
      [.showResult (resultOf i), .showHistory (.arr (resultOf i :: items))] := by
  simp only [generatePrice, hacc, hset, resultOf, jsonStringify_arr, showResult_priceResult]
  simp only [Bool.false_eq_true, if_false]
  split <;> rfl

theorem applyRule_low (n : JSNum) {r : ℚ} (h : r < 1 / 10) :
    applyRule n (.fin r) = (n, "Original Price (0.1%)") := by
  have h1 : JSNum.lt (.fin r) (.fin (1 / 10)) = true := by
    simp only [JSNum.lt, decide_eq_true_eq]; exact h
  unfold applyRule; rw [if_pos h1]

theorem applyRule_mid (n : JSNum) {r : ℚ} (h1 : 1 / 10 ≤ r) (h2 : r < 40) :
    applyRule n (.fin r) = (n.mul (.fin (3 / 2)), "1.5x Original Price (39.9%)") := by
  have h3 : ¬ JSNum.lt (.fin r) (.fin (1 / 10)) = true := by
    simp only [JSNum.lt, decide_eq_true_eq]; exact not_lt.mpr h1
  have h4 : JSNum.lt (.fin r) (.fin 40) = true := by
    simp only [JSNum.lt, decide_eq_true_eq]; exact h2
  unfold applyRule; rw [if_neg h3, if_pos h4]

theorem applyRule_high (n : JSNum) {r : ℚ} (h : 40 ≤ r) :
    applyRule n (.fin r) = (n.mul (.fin (5 / 2)), "2.5x Original Price (60%)") := by
  have h1 : ¬ JSNum.lt (.fin r) (.fin (1 / 10)) = true := by
    have : (1 : ℚ) / 10 < 40 := by norm_num
    simp only [JSNum.lt, decide_eq_true_eq]
    exact not_lt.mpr (le_trans this.le h)
  have h2 : ¬ JSNum.lt (.fin r) (.fin 40) = true := by
    simp only [JSNum.lt, decide_eq_true_eq]; exact not_lt.mpr h
  unfold applyRule; rw [if_neg h1, if_neg h2]

/-- Whatever the draw, the branch taken is one of the three. -/
theorem applyRule_cases (n x : JSNum) :
    applyRule n x = (n, "Original Price (0.1%)") ∨
    applyRule n x = (n.mul (.fin (3 / 2)), "1.5x Original Price (39.9%)") ∨
    applyRule n x = (n.mul (.fin (5 / 2)), "2.5x Original Price (60%)") := by
  unfold applyRule
  split
  · exact Or.inl rfl
  · split
    · exact Or.inr (Or.inl rfl)
    · exact Or.inr (Or.inr rfl)

theorem posInf_mul_pos {q : ℚ} (h : 0 < q) : JSNum.mul .posInf (.fin q) = .posInf := by
  have h1 : ¬ q < 0 := not_lt.mpr h.le
  have h2 : q ≠ 0 := h.ne.symm
  simp [JSNum.mul, JSNum.sgn, JSNum.infOfSign, h1, h2]

theorem applyRule_posInf (x : JSNum) : (applyRule .posInf x).1 = .posInf := by
  unfold applyRule
  split
  · rfl
  · split
    · exact posInf_mul_pos (by norm_num)
    · exact posInf_mul_pos (by norm_num)

/-! ## Evaluating the rounding -/

theorem roundDouble_of_magnitude {q : ℚ} {n d m : Nat} {k : Int} (hq : 0 ≤ q)
    (hn : q.num.natAbs = n) (hd : q.den = d) (h : JSNum.roundMagnitude n d = some (m, k)) :
    JSNum.roundDouble q = .fin ((m : ℚ) * 2 ^ k) := by
  unfold JSNum.roundDouble
  rw [hn, hd, h]
  simp only [if_neg (not_lt.mpr hq)]

theorem roundDouble_div (n d m : Nat) (k : Int) (hd : 0 < d) (hc : Nat.Coprime n d)
    (h : JSNum.roundMagnitude n d = some (m, k)) :
    JSNum.roundDouble ((n : ℚ) / (d : ℚ)) = .fin ((m : ℚ) * 2 ^ k) := by
  have hd' : (0 : ℤ) < (d : ℤ) := by exact_mod_cast hd
  have hc' : Nat.Coprime (n : ℤ).natAbs (d : ℤ).natAbs := by simpa using hc
  have hnum := @Rat.num_div_eq_of_coprime (n : ℤ) (d : ℤ) hd' hc'
  have hden := @Rat.den_div_eq_of_coprime (n : ℤ) (d : ℤ) hd' hc'
  have hcast : ((n : ℤ) : ℚ) / ((d : ℤ) : ℚ) = (n : ℚ) / (d : ℚ) := by push_cast; rfl
  rw [hcast] at hnum hden
  apply roundDouble_of_magnitude (by positivity) _ _ h
  · rw [hnum]; simp
  · exact_mod_cast hden

/-- The product of two finite numbers whose exact product is the fraction `n / d` in lowest
terms, once the rounding of `n / d` has been computed. -/
theorem mul_fin_eval (a b v : ℚ) (n d m : Nat) (k : Int) (hab : a * b = (n : ℚ) / (d : ℚ))
    (hd : 0 < d) (hc : Nat.Coprime n d) (h : JSNum.roundMagnitude n d = some (m, k))
    (hv : (m : ℚ) * 2 ^ k = v) :
    JSNum.mul (.fin a) (.fin b) = .fin v := by
  simp only [JSNum.mul]
  rw [hab, roundDouble_div n d m k hd hc h, hv]

theorem mul_fin_fin (a b : ℚ) : JSNum.mul (.fin a) (.fin b) = JSNum.roundDouble (a * b) :=
  rfl

theorem roundDouble_nat_overflow (n : Nat) (h : JSNum.roundMagnitude n 1 = none) :
    JSNum.roundDouble (n : ℚ) = .posInf := by
  unfold JSNum.roundDouble
  have hn : ((n : ℚ)).num.natAbs = n := by simp
  have hd : ((n : ℚ)).den = 1 := by simp
  rw [hn, hd, h]
  have : ¬ ((n : ℚ) < 0) := not_lt.mpr (by positivity)
  simp only [if_neg this]

theorem cast_shiftLeft (a s : ℕ) : ((a <<< s : ℕ) : ℚ) = (a : ℚ) * 2 ^ s := by
  rw [Nat.shiftLeft_eq]; push_cast; rfl

theorem coprime_three_shift (s : ℕ) : Nat.Coprime 3 (1 <<< s) := by
  rw [Nat.shiftLeft_eq, one_mul]
  exact Nat.Coprime.pow_right _ (by decide)

theorem shift_pos (s : ℕ) : 0 < 1 <<< s := by
  rw [Nat.shiftLeft_eq, one_mul]; exact Nat.pos_pow_of_pos _ (by decide)

theorem three_halves_of_inv (x : ℚ) (hx : x ≠ 0) : (1 / x) * (3 / 2) = 3 / (x * 2) := by
  field_simp

/-! ### Products met in the examples

The first four are exact.  The next three are draws: `Math.random()` at the binary64 values
written `0.0005`, `0.001` and `0.39999999999999997` gives the draws written `0.05`, `0.1` and
`40`.  The last three show the rounding at work: `0.1 * 1.5` is `0.15000000000000002`,
`1e308 * 2.5` is `Infinity`, and `5e-324 * 1.5` is `1e-323`. -/

set_option maxRecDepth 100000 in
theorem mul_half_hundred : JSNum.mul (.fin (1 / 2)) (.fin 100) = .fin 50 :=
  mul_fin_eval _ _ _ 50 1 7036874417766400 (-47) (by norm_num) (by norm_num) (by norm_num)
    (by decide) (by norm_num)

set_option maxRecDepth 100000 in
theorem mul_quarter_hundred : JSNum.mul (.fin (1 / 4)) (.fin 100) = .fin 25 :=
  mul_fin_eval _ _ _ 25 1 7036874417766400 (-48) (by norm_num) (by norm_num) (by norm_num)
    (by decide) (by norm_num)

set_option maxRecDepth 100000 in
theorem mul_hundred_five_halves : JSNum.mul (.fin 100) (.fin (5 / 2)) = .fin 250 :=
  mul_fin_eval _ _ _ 250 1 8796093022208000 (-45) (by norm_num) (by norm_num) (by norm_num)
    (by decide) (by norm_num)

set_option maxRecDepth 100000 in
theorem mul_hundred_three_halves : JSNum.mul (.fin 100) (.fin (3 / 2)) = .fin 150 :=
  mul_fin_eval _ _ _ 150 1 5277655813324800 (-45) (by norm_num) (by norm_num) (by norm_num)
    (by decide) (by norm_num)

set_option maxRecDepth 100000 in
theorem mul_eight_three_halves : JSNum.mul (.fin 8) (.fin (3 / 2)) = .fin 12 :=
  mul_fin_eval _ _ _ 12 1 6755399441055744 (-49) (by norm_num) (by norm_num) (by norm_num)
    (by decide) (by norm_num)

set_option maxRecDepth 100000 in
theorem draw_twentieth :
    JSNum.mul (.fin (1152921504606847 / 2305843009213693952)) (.fin 100) =
      .fin (3602879701896397 / 72057594037927936) :=
  mul_fin_eval _ _ _ 28823037615171175 576460752303423488 7205759403792794 (-57)
    (by norm_num) (by norm_num) (by norm_num) (by decide) (by norm_num)

set_option maxRecDepth 100000 in
theorem draw_tenth :
    JSNum.mul (.fin (1152921504606847 / 1152921504606846976)) (.fin 100) =
      .fin (3602879701896397 / 36028797018963968) :=
  mul_fin_eval _ _ _ 28823037615171175 288230376151711744 7205759403792794 (-56)
    (by norm_num) (by norm_num) (by norm_num) (by decide) (by norm_num)

set_option maxRecDepth 100000 in
theorem draw_forty :
    JSNum.mul (.fin (7205759403792793 / 18014398509481984)) (.fin 100) = .fin 40 :=
  mul_fin_eval _ _ _ 180143985094819825 4503599627370496 5629499534213120 (-47)
    (by norm_num) (by norm_num) (by norm_num) (by decide) (by norm_num)

set_option maxRecDepth 100000 in
theorem mul_rounds :
    JSNum.mul (.fin (3602879701896397 / 36028797018963968)) (.fin (3 / 2)) =
      .fin (1351079888211149 / 9007199254740992) :=
  mul_fin_eval _ _ _ 10808639105689191 72057594037927936 5404319552844596 (-55) (by norm_num)
    (by norm_num) (by norm_num) (by decide) (by norm_num)

set_option maxRecDepth 100000 in
theorem roundMagnitude_overflow :
    JSNum.roundMagnitude (25052104500112160 <<< 970) 1 = none := by decide

theorem mul_overflows :
    JSNum.mul (.fin ((5010420900022432 <<< 971 : ℕ) : ℚ)) (.fin (5 / 2)) = .posInf := by
  have hab : (((5010420900022432 <<< 971 : ℕ) : ℚ)) * ((5 : ℚ) / (2 : ℚ)) =
      ((25052104500112160 <<< 970 : ℕ) : ℚ) := by
    rw [cast_shiftLeft, cast_shiftLeft, pow_succ (2 : ℚ) 970]
    push_cast
    ring
  rw [mul_fin_fin, hab]
  exact roundDouble_nat_overflow _ roundMagnitude_overflow

set_option maxRecDepth 100000 in
theorem roundMagnitude_denormal :
    JSNum.roundMagnitude 3 (1 <<< 1075) = some (2, -1074) := by decide

theorem mul_denormal :
    JSNum.mul (.fin ((1 : ℚ) / (2 : ℚ) ^ 1074)) (.fin (3 / 2)) =
      .fin ((2 : ℚ) / (2 : ℚ) ^ 1074) := by
  have hx : ((2 : ℚ) ^ 1074) ≠ 0 := pow_ne_zero _ two_ne_zero
  have hab : ((1 : ℚ) / (2 : ℚ) ^ 1074) * ((3 : ℚ) / (2 : ℚ)) =
      ((3 : ℕ) : ℚ) / ((1 <<< 1075 : ℕ) : ℚ) := by
    rw [cast_shiftLeft, pow_succ (2 : ℚ) 1074, three_halves_of_inv _ hx, Nat.cast_one, one_mul,
      Nat.cast_ofNat]
  rw [mul_fin_fin, hab, roundDouble_div 3 (1 <<< 1075) 2 (-1074) (shift_pos _)
    (coprime_three_shift _) roundMagnitude_denormal]
  refine congrArg JSNum.fin ?_
  have h : (-1074 : ℤ) = -((1074 : ℕ) : ℤ) := rfl
  rw [h, zpow_neg, zpow_natCast, div_eq_mul_inv, Nat.cast_ofNat]

/-! ## Results of accepted calls -/

theorem resultOf_of_pos (p u : ℚ) (now : Int) (fails : Bool) :
    ∃ (finalPrice : JSNum) (rule : String),
      resultOf ⟨.fin p, u, now, fails⟩ = priceResult now (.fin p) finalPrice rule ∧
      (finalPrice = .fin p ∨ finalPrice = (JSNum.fin p).mul (.fin (3 / 2)) ∨
        finalPrice = (JSNum.fin p).mul (.fin (5 / 2))) := by
  rcases applyRule_cases (.fin p) ((JSNum.fin u).mul (.fin 100)) with h | h | h
  · exact ⟨.fin p, "Original Price (0.1%)", by simp only [resultOf, h], Or.inl rfl⟩
  · exact ⟨(JSNum.fin p).mul (.fin (3 / 2)), "1.5x Original Price (39.9%)",
      by simp only [resultOf, h], Or.inr (Or.inl rfl)⟩
  · exact ⟨(JSNum.fin p).mul (.fin (5 / 2)), "2.5x Original Price (60%)",
      by simp only [resultOf, h], Or.inr (Or.inr rfl)⟩

theorem resultOf_of_draw (n : JSNum) (u r : ℚ) (now : Int) (fails : Bool)
    (hdraw : (JSNum.fin u).mul (.fin 100) = .fin r) :
    resultOf ⟨n, u, now, fails⟩ =
      priceResult now n (applyRule n (.fin r)).1 (applyRule n (.fin r)).2 := by
  simp only [resultOf, hdraw]

theorem showEntries_results :
    ∀ entries : List JSVal,
      (∀ e ∈ entries, ∃ (t : Int) (a b : JSNum) (rule : String), e = priceResult t a b rule) →
      showEntries entries = .ok () := by
  intro entries
  induction entries with
  | nil => intro _; rfl
  | cons e rest ih =>
    intro h
    obtain ⟨t, a, b, rule, he⟩ := h e (List.mem_cons_self _ _)
    have hrest := ih fun x hx => h x (List.mem_cons_of_mem _ hx)
    simp only [showEntries, he, showEntry_priceResult, hrest, bind, Except.bind]

theorem showHistory_results (e : JSVal) (rest : List JSVal)
    (h : ∀ x ∈ e :: rest, ∃ (t : Int) (a b : JSNum) (rule : String),
      x = priceResult t a b rule) :
    showHistory (.arr (e :: rest)) = .ok () := by
  have hs := showEntries_results (e :: rest) h
  simp only [showHistory, lengthIsZero, List.isEmpty_cons, bind, Except.bind, hs]
  rfl

theorem generatePrice_thrown_of_accept (toISOString : Int → String) (items : List JSVal)
    (storage : Option Stored) (i : Inputs) (hacc : rejects i.parsed = false)
    (hset : i.setItemThrows = false)
    (hitems : ∀ x ∈ items, ∃ (t : Int) (a b : JSNum) (rule : String),
      x = priceResult t a b rule) :
    (generatePrice toISOString ⟨.arr items, storage⟩ i).thrown = none := by
  have hh : showHistory (.arr (resultOf i :: items)) = .ok () := by
    apply showHistory_results
    intro x hx
    rcases List.mem_cons.mp hx with hx | hx
    · exact ⟨_, _, _, _, hx.trans rfl⟩
    · exact hitems x hx
  simp only [resultOf] at hh
  simp only [generatePrice, hacc, hset, jsonStringify_arr, showResult_priceResult]
  simp only [Bool.false_eq_true, if_false, hh]

/-! ## The pricing rule -/

/-- C1: for a price `p > 0` and a draw `r` in `[0, 100)`, the value of `Math.random() * 100`,
`generatePrice` records and shows the result of the branch picked by half-open intervals:
`r < 0.1` gives `finalPrice = p` with the label "Original Price (0.1%)", `0.1 ≤ r < 40` gives
the product `p * 1.5` with "1.5x Original Price (39.9%)", and `40 ≤ r` gives the product
`p * 2.5` with "2.5x Original Price (60%)"; the products are those of the script, rounded to
binary64. -/
theorem generatePrice_selects_branch (toISOString : Int → String) (items : List JSVal)
    (storage : Option Stored) (p u r : ℚ) (now : Int) (fails : Bool) (hp : 0 < p)
    (hdraw : (JSNum.fin u).mul (.fin 100) = .fin r) (hr0 : 0 ≤ r) (hr : r < 100) :
    ∃ result : JSVal,
      (generatePrice toISOString ⟨.arr items, storage⟩
        ⟨.fin p, u, now, fails⟩).world.priceHistory = .arr (result :: items) ∧
      (fails = false →
        (generatePrice toISOString ⟨.arr items, storage⟩ ⟨.fin p, u, now, fails⟩).effects =
          [.showResult result, .showHistory (.arr (result :: items))]) ∧
      (r < 1 / 10 → result = priceResult now (.fin p) (.fin p) "Original Price (0.1%)") ∧
      (1 / 10 ≤ r → r < 40 →
        result = priceResult now (.fin p) ((JSNum.fin p).mul (.fin (3 / 2)))
          "1.5x Original Price (39.9%)") ∧
      (40 ≤ r →
        result = priceResult now (.fin p) ((JSNum.fin p).mul (.fin (5 / 2)))
          "2.5x Original Price (60%)") := by
  have _ := hr0
  have _ := hr
  refine ⟨resultOf ⟨.fin p, u, now, fails⟩, ?_, ?_, ?_, ?_, ?_⟩
  · exact generatePrice_history_of_accept toISOString items storage _ (rejects_fin_pos hp)
  · intro hf
    exact generatePrice_effects_of_accept toISOString items storage _ (rejects_fin_pos hp) hf
  · intro h
    rw [resultOf_of_draw _ u r now fails hdraw, applyRule_low _ h]
  · intro h1 h2
    rw [resultOf_of_draw _ u r now fails hdraw, applyRule_mid _ h1 h2]
  · intro h
    rw [resultOf_of_draw _ u r now fails hdraw, applyRule_high _ h]

/-- Witness of C1: the price 100 at four values of `Math.random()`, each a binary64 value:
the one written `0.0005`, whose draw is the binary64 value written `0.05`, gives 100;
`0.5`, whose draw is 50, gives 250; the one written `0.001`, whose draw is the binary64 value
written `0.1`, gives 150; and the one written `0.39999999999999997`, whose draw is rounded to
exactly 40, gives 250. -/
theorem generatePrice_selects_branch_witness :
    (generatePrice isoString ⟨.arr [], none⟩
      ⟨.fin 100, 1152921504606847 / 2305843009213693952, 0, false⟩).world.priceHistory
        = .arr [priceResult 0 (.fin 100) (.fin 100) "Original Price (0.1%)"] ∧
    (generatePrice isoString ⟨.arr [], none⟩ ⟨.fin 100, 1 / 2, 0, false⟩).world.priceHistory
        = .arr [priceResult 0 (.fin 100) (.fin 250) "2.5x Original Price (60%)"] ∧
    (generatePrice isoString ⟨.arr [], none⟩
      ⟨.fin 100, 1152921504606847 / 1152921504606846976, 0, false⟩).world.priceHistory
        = .arr [priceResult 0 (.fin 100) (.fin 150) "1.5x Original Price (39.9%)"] ∧
    (generatePrice isoString ⟨.arr [], none⟩
      ⟨.fin 100, 7205759403792793 / 18014398509481984, 0, false⟩).world.priceHistory
        = .arr [priceResult 0 (.fin 100) (.fin 250) "2.5x Original Price (60%)"] := by
  refine ⟨?_, ?_, ?_, ?_⟩
  · obtain ⟨result, h, -, hlow, -, -⟩ :=
      generatePrice_selects_branch isoString [] none 100 _ _ 0 false (by norm_num)
        draw_twentieth (by norm_num) (by norm_num)
    rw [h, hlow (by norm_num)]
  · obtain ⟨result, h, -, -, -, hhigh⟩ :=
      generatePrice_selects_branch isoString [] none 100 _ _ 0 false (by norm_num)
        mul_half_hundred (by norm_num) (by norm_num)
    rw [h, hhigh (by norm_num), mul_hundred_five_halves]
  · obtain ⟨result, h, -, -, hmid, -⟩ :=
      generatePrice_selects_branch isoString [] none 100 _ _ 0 false (by norm_num)
        draw_tenth (by norm_num) (by norm_num)
    rw [h, hmid (by norm_num) (by norm_num), mul_hundred_three_halves]
  · obtain ⟨result, h, -, -, -, hhigh⟩ :=
      generatePrice_selects_branch isoString [] none 100 _ _ 0 false (by norm_num)
        draw_forty (by norm_num) (by norm_num)
    rw [h, hhigh (by norm_num), mul_hundred_five_halves]

/-- C2: for a price `p > 0` and any value of `Math.random()`, the result that `generatePrice`
records has `originalPrice = p` and a `finalPrice` that is one of `p`, the product `p * 1.5` and
the product `p * 2.5`, the products being those of the script, rounded to binary64. -/
theorem generatePrice_finalPrice_mem (toISOString : Int → String) (items : List JSVal)
    (storage : Option Stored) (p u : ℚ) (now : Int) (fails : Bool) (hp : 0 < p) :
    ∃ (finalPrice : JSNum) (rule : String),
      (generatePrice toISOString ⟨.arr items, storage⟩
        ⟨.fin p, u, now, fails⟩).world.priceHistory =
          .arr (priceResult now (.fin p) finalPrice rule :: items) ∧
      (fails = false →
        (generatePrice toISOString ⟨.arr items, storage⟩ ⟨.fin p, u, now, fails⟩).effects =
          [.showResult (priceResult now (.fin p) finalPrice rule),
            .showHistory (.arr (priceResult now (.fin p) finalPrice rule :: items))]) ∧
      (finalPrice = .fin p ∨ finalPrice = (JSNum.fin p).mul (.fin (3 / 2)) ∨
        finalPrice = (JSNum.fin p).mul (.fin (5 / 2))) := by
  have hacc : rejects (.fin p) = false := rejects_fin_pos hp
  obtain ⟨fp, rule, hres, hmem⟩ := resultOf_of_pos p u now fails
  refine ⟨fp, rule, ?_, ?_, hmem⟩
  · rw [generatePrice_history_of_accept toISOString items storage _ hacc, hres]
  · intro hf
    rw [generatePrice_effects_of_accept toISOString items storage _ hacc hf, hres]

/-- Witness of C2: the price 100 with `Math.random()` at 0.25 is recorded with a final price
that is one of 100, 150 and 250. -/
theorem generatePrice_finalPrice_mem_witness :
    ∃ (finalPrice : JSNum) (rule : String),
      (generatePrice isoString ⟨.arr [], none⟩
        ⟨.fin 100, 1 / 4, 0, false⟩).world.priceHistory =
          .arr (priceResult 0 (.fin 100) finalPrice rule :: []) ∧
      (finalPrice = .fin 100 ∨ finalPrice = .fin 150 ∨ finalPrice = .fin 250) := by
  obtain ⟨fp, rule, h, -, hmem⟩ :=
    generatePrice_finalPrice_mem isoString [] none 100 (1 / 4) 0 false (by norm_num)
  rw [mul_hundred_three_halves, mul_hundred_five_halves] at hmem
  exact ⟨fp, rule, h, hmem⟩

/-! ## The input guard -/

/-- C3: when the parsed price is `NaN` (missing or non-numeric input), zero or negative,
`generatePrice` only raises the notification "Please enter a valid price": the in-memory
history and the persisted value are what they were, nothing is displayed, and the call
returns normally. -/
theorem generatePrice_rejects_invalid (toISOString : Int → String) (w : World) (i : Inputs)
    (h : i.parsed = .nan ∨ i.parsed = .negInf ∨ ∃ q : ℚ, q ≤ 0 ∧ i.parsed = .fin q) :
    generatePrice toISOString w i =
      { world := w, effects := [.alert "Please enter a valid price"], thrown := none } := by
  have hrej : rejects i.parsed = true := by
    rcases h with h | h | ⟨q, hq, h⟩
    · rw [h]; simp [rejects, JSNum.truthy]
    · rw [h]; simp [rejects, JSNum.truthy, JSNum.le]
    · rw [h, rejects_fin]; simpa using hq
  simp only [generatePrice, hrej, if_true]

/-- Witness of C3: the prices `NaN`, 0 and -5 against a history of one entry and a stored
text. -/
theorem generatePrice_rejects_invalid_witness :
    generatePrice isoString ⟨.arr [.null], some (.malformed "x")⟩ ⟨.nan, 1 / 2, 0, false⟩ =
      { world := ⟨.arr [.null], some (.malformed "x")⟩,
        effects := [.alert "Please enter a valid price"], thrown := none } ∧
    generatePrice isoString ⟨.arr [.null], some (.malformed "x")⟩ ⟨.fin 0, 1 / 2, 0, false⟩ =
      { world := ⟨.arr [.null], some (.malformed "x")⟩,
        effects := [.alert "Please enter a valid price"], thrown := none } ∧
    generatePrice isoString ⟨.arr [.null], some (.malformed "x")⟩ ⟨.fin (-5), 1 / 2, 0, false⟩ =
      { world := ⟨.arr [.null], some (.malformed "x")⟩,
        effects := [.alert "Please enter a valid price"], thrown := none } :=
  ⟨generatePrice_rejects_invalid isoString _ ⟨.nan, 1 / 2, 0, false⟩ (Or.inl rfl),
    generatePrice_rejects_invalid isoString _ ⟨.fin 0, 1 / 2, 0, false⟩
      (Or.inr (Or.inr ⟨0, le_refl 0, rfl⟩)),
    generatePrice_rejects_invalid isoString _ ⟨.fin (-5), 1 / 2, 0, false⟩
      (Or.inr (Or.inr ⟨-5, by norm_num, rfl⟩))⟩

/-- Counterexample to C4: positive infinity is not finite, yet `generatePrice` does not
reject it: on a fresh page it records and shows a result with both prices infinite, and
writes the history to storage. -/
theorem generatePrice_accepts_posInf :
    JSNum.isFinite .posInf = false ∧
    (generatePrice isoString (freshPage none) ⟨.posInf, 1 / 2, 0, false⟩).world.priceHistory =
      .arr [priceResult 0 .posInf .posInf "2.5x Original Price (60%)"] ∧
    (generatePrice isoString (freshPage none) ⟨.posInf, 1 / 2, 0, false⟩).effects =
      [.showResult (priceResult 0 .posInf .posInf "2.5x Original Price (60%)"),
        .showHistory (.arr [priceResult 0 .posInf .posInf "2.5x Original Price (60%)"])] ∧
    (generatePrice isoString (freshPage none) ⟨.posInf, 1 / 2, 0, false⟩).world.storage.isSome
      = true := by
  have hr : applyRule .posInf ((JSNum.fin (1 / 2)).mul (.fin 100)) =
      (.posInf, "2.5x Original Price (60%)") := by
    rw [mul_half_hundred, applyRule_high _ (by norm_num), posInf_mul_pos (by norm_num)]
  refine ⟨rfl, ?_, ?_, ?_⟩
  · rw [freshPage, generatePrice_history_of_accept isoString [] none _ rejects_posInf]
    simp only [resultOf, hr]
  · rw [freshPage, generatePrice_effects_of_accept isoString [] none _ rejects_posInf rfl]
    simp only [resultOf, hr]
  · rw [freshPage, generatePrice_world_of_accept isoString [] none _ rejects_posInf rfl]
    rfl

/-- C4, as amended: a non-finite price other than positive infinity (`NaN`, negative
infinity) is rejected with the notification and nothing is changed or displayed; positive
infinity passes the guard and is priced like any positive number, the recorded result having
both prices infinite. -/
theorem generatePrice_nonfinite (toISOString : Int → String) (w : World) (i : Inputs)
    (hfin : i.parsed.isFinite = false) :
    (i.parsed ≠ .posInf →
      generatePrice toISOString w i =
        { world := w, effects := [.alert "Please enter a valid price"], thrown := none }) ∧
    (i.parsed = .posInf → ∀ items : List JSVal, w.priceHistory = .arr items →
      ∃ rule : String,
        (generatePrice toISOString w i).world.priceHistory =
          .arr (priceResult i.now .posInf .posInf rule :: items)) := by
  constructor
  · intro hne
    have hrej : rejects i.parsed = true := by
      cases hp : i.parsed with
      | nan => simp [rejects, JSNum.truthy]
      | posInf => exact absurd hp hne
      | negInf => simp [rejects, JSNum.truthy, JSNum.le]
      | fin q => rw [hp] at hfin; simp [JSNum.isFinite] at hfin
    simp only [generatePrice, hrej, if_true]
  · intro hp items hitems
    have hacc : rejects i.parsed = false := by rw [hp]; exact rejects_posInf
    obtain ⟨h, s⟩ := w
    simp only at hitems
    subst hitems
    rw [generatePrice_history_of_accept toISOString items s i hacc]
    refine ⟨(applyRule i.parsed ((JSNum.fin i.mathRandom).mul (.fin 100))).2, ?_⟩
    simp only [resultOf, hp, applyRule_posInf]

/-- Witness of C4 as amended: `NaN` is rejected on a fresh page. -/
theorem generatePrice_nonfinite_witness :
    JSNum.isFinite .nan = false ∧
    generatePrice isoString (freshPage none) ⟨.nan, 1 / 2, 0, false⟩ =
      { world := freshPage none, effects := [.alert "Please enter a valid price"],
        thrown := none } :=
  ⟨rfl, (generatePrice_nonfinite isoString (freshPage none) ⟨.nan, 1 / 2, 0, false⟩ rfl).1
    (by simp)⟩

/-! ## Serialisation facts -/

theorem serializeList_eq_map (toISOString : Int → String) (items : List JSVal) :
    serializeList toISOString items =
      items.map fun x => (serialize toISOString x).getD .null := by
  induction items with
  | nil => simp [serializeList]
  | cons x xs ih => simp [serializeList, ih]

theorem serializeList_length (toISOString : Int → String) (items : List JSVal) :
    (serializeList toISOString items).length = items.length := by
  simp [serializeList_eq_map]

theorem serialize_priceResult (toISOString : Int → String) (t : Int) (a b : JSNum)
    (rule : String) :
    serialize toISOString (priceResult t a b rule) =
      some (.obj [("timestamp", .str (toISOString t)), ("originalPrice", a.toJson),
        ("finalPrice", b.toJson), ("appliedRule", .str rule)]) := by
  simp [priceResult, serialize, serializeFields]

/-! ## Sequences of accepted calls -/

theorem generateAll_of_accept (toISOString : Int → String) :
    ∀ (inputs : List Inputs) (items : List JSVal) (storage : Option Stored),
      (∀ i ∈ inputs, rejects i.parsed = false ∧ i.setItemThrows = false) →
      generateAll toISOString ⟨.arr items, storage⟩ inputs =
        ⟨.arr ((inputs.map resultOf).reverse ++ items),
          if inputs.isEmpty then storage
          else some (.json (.arr (serializeList toISOString
            (((inputs.map resultOf).reverse ++ items).take 50))))⟩ := by
  intro inputs
  induction inputs with
  | nil => intro items storage _; simp [generateAll]
  | cons i rest ih =>
    intro items storage hacc
    have hi := hacc i (List.mem_cons_self _ _)
    have hrest : ∀ j ∈ rest, rejects j.parsed = false ∧ j.setItemThrows = false :=
      fun j hj => hacc j (List.mem_cons_of_mem _ hj)
    rw [generateAll, generatePrice_world_of_accept toISOString items storage i hi.1 hi.2,
      ih _ _ hrest]
    cases rest with
    | nil => simp
    | cons j rest2 => simp

theorem onLoad_json_history (h : JSVal) (doc : Json) :
    (onLoad ⟨h, some (.json doc)⟩).world.priceHistory = doc.toJS := by
  simp only [onLoad, Stored.truthy, jsonParse, if_true]
  split <;> rfl

theorem onLoad_json_thrown (h : JSVal) (doc : Json) :
    (onLoad ⟨h, some (.json doc)⟩).thrown = none ↔ showHistory doc.toJS = .ok () := by
  simp only [onLoad, Stored.truthy, jsonParse, if_true]
  split
  · rename_i e he; simp [he]
  · rename_i u he; simp [he]

theorem resultOf_sample :
    resultOf ⟨.fin 100, 1 / 2, 0, false⟩ =
      priceResult 0 (.fin 100) (.fin 250) "2.5x Original Price (60%)" := by
  have h1 : applyRule (.fin 100) ((JSNum.fin (1 / 2)).mul (.fin 100)) =
      (.fin 250, "2.5x Original Price (60%)") := by
    rw [mul_half_hundred, applyRule_high _ (by norm_num), mul_hundred_five_halves]
  simp only [resultOf, h1]

theorem resultOf_sample_mid :
    resultOf ⟨.fin 8, 1 / 4, 1000, false⟩ =
      priceResult 1000 (.fin 8) (.fin 12) "1.5x Original Price (39.9%)" := by
  have h1 : applyRule (.fin 8) ((JSNum.fin (1 / 4)).mul (.fin 100)) =
      (.fin 12, "1.5x Original Price (39.9%)") := by
    rw [mul_quarter_hundred, applyRule_mid _ (by norm_num) (by norm_num),
      mul_eight_three_halves]
  simp only [resultOf, h1]

theorem accept_replicate (n : Nat) (i : Inputs)
    (hi : rejects i.parsed = false ∧ i.setItemThrows = false) :
    ∀ j ∈ List.replicate n i, rejects j.parsed = false ∧ j.setItemThrows = false := by
  intro j hj
  rw [List.eq_of_mem_replicate hj]
  exact hi

/-! ## The persisted history -/

/-- C5: from a fresh page with nothing stored, after `n` accepted calls whose write succeeds
the persisted array is the serialisation of the `min n 50` most recent results, most recent
first; its length is `min n 50`, hence at most 50; after 51 calls it has exactly 50
entries, starts with the 51st result and consists of the results 51 down to 2, the first one
being gone; and each of the calls returns normally. -/
theorem persisted_after_generations (toISOString : Int → String) (inputs : List Inputs)
    (hacc : ∀ i ∈ inputs, rejects i.parsed = false ∧ i.setItemThrows = false) :
    persistedEntries (generateAll toISOString (freshPage none) inputs) =
        serializeList toISOString ((inputs.map resultOf).reverse.take 50) ∧
    (persistedEntries (generateAll toISOString (freshPage none) inputs)).length =
        min inputs.length 50 ∧
    (persistedEntries (generateAll toISOString (freshPage none) inputs)).length ≤ 50 ∧
    (inputs.length = 51 →
      (persistedEntries (generateAll toISOString (freshPage none) inputs)).length = 50 ∧
      (persistedEntries (generateAll toISOString (freshPage none) inputs)).head? =
        inputs.getLast?.map (fun i => (serialize toISOString (resultOf i)).getD .null) ∧
      persistedEntries (generateAll toISOString (freshPage none) inputs) =
        serializeList toISOString ((inputs.drop 1).map resultOf).reverse) ∧
    (∀ (k : Nat) (i : Inputs), inputs[k]? = some i →
      (generatePrice toISOString
        (generateAll toISOString (freshPage none) (inputs.take k)) i).thrown = none) := by
  have hmain : persistedEntries (generateAll toISOString (freshPage none) inputs) =
      serializeList toISOString ((inputs.map resultOf).reverse.take 50) := by
    rw [freshPage, generateAll_of_accept toISOString inputs [] none hacc]
    cases inputs with
    | nil => simp [persistedEntries, serializeList]
    | cons i rest => simp [persistedEntries]
  have hlen : (persistedEntries (generateAll toISOString (freshPage none) inputs)).length =
      min inputs.length 50 := by
    rw [hmain, serializeList_length]
    simp [Nat.min_comm]
  refine ⟨hmain, hlen, ?_, ?_, ?_⟩
  · rw [hlen]; exact Nat.min_le_right _ _
  rotate_left
  · intro k i hk
    have hsub : ∀ j ∈ inputs.take k, rejects j.parsed = false ∧ j.setItemThrows = false :=
      fun j hj => hacc j (List.mem_of_mem_take hj)
    have hi := hacc i (List.getElem?_mem hk)
    rw [freshPage, generateAll_of_accept toISOString _ [] none hsub]
    apply generatePrice_thrown_of_accept toISOString _ _ i hi.1 hi.2
    intro x hx
    simp only [List.append_nil, List.mem_reverse, List.mem_map] at hx
    obtain ⟨j, -, rfl⟩ := hx
    exact ⟨_, _, _, _, rfl⟩
  · intro h51
    refine ⟨by rw [hlen, h51]; rfl, ?_, ?_⟩
    · rw [hmain, serializeList_eq_map]
      cases hrev : (inputs.map resultOf).reverse with
      | nil =>
        have : inputs.length = 0 := by
          have := congrArg List.length hrev
          simpa using this
        omega
      | cons r rs =>
        have hlast : inputs.getLast?.map resultOf = some r := by
          have := congrArg List.head? hrev
          rw [List.head?_reverse, List.getLast?_map] at this
          simpa using this
        cases hl : inputs.getLast? with
        | none => rw [hl] at hlast; simp at hlast
        | some i =>
          rw [hl] at hlast
          simp only [Option.map_some', Option.some.injEq] at hlast
          simp [hlast]
    · rw [hmain]
      congr 1
      cases inputs with
      | nil => simp at h51
      | cons i rest =>
        have hr : rest.length = 50 := by simpa using h51
        simp only [List.map_cons, List.reverse_cons, List.drop_one, List.tail_cons]
        rw [List.take_append_of_le_length (by simp [hr])]
        rw [List.take_of_length_le (by simp [hr])]

/-- Witness of C5: two accepted calls on a fresh page leave the two results in storage, the
later one first. -/
theorem persisted_after_generations_witness :
    persistedEntries (generateAll isoString (freshPage none)
        [⟨.fin 100, 1 / 2, 0, false⟩, ⟨.fin 8, 1 / 4, 1000, false⟩]) =
      [.obj [("timestamp", .str "1970-01-01T00:00:01.000Z"), ("originalPrice", .num 8),
          ("finalPrice", .num 12), ("appliedRule", .str "1.5x Original Price (39.9%)")],
        .obj [("timestamp", .str "1970-01-01T00:00:00.000Z"), ("originalPrice", .num 100),
          ("finalPrice", .num 250), ("appliedRule", .str "2.5x Original Price (60%)")]] := by
  have h := (persisted_after_generations isoString
    [⟨.fin 100, 1 / 2, 0, false⟩, ⟨.fin 8, 1 / 4, 1000, false⟩]
    (by
      intro i hi
      simp only [List.mem_cons, List.mem_singleton, List.not_mem_nil, or_false] at hi
      rcases hi with rfl | rfl
      · exact ⟨rejects_fin_pos (by norm_num), rfl⟩
      · exact ⟨rejects_fin_pos (by norm_num), rfl⟩)).1
  rw [h]
  have e0 : isoString 0 = "1970-01-01T00:00:00.000Z" := by decide
  have e1 : isoString 1000 = "1970-01-01T00:00:01.000Z" := by decide
  simp only [List.map_cons, List.map_nil, resultOf_sample, resultOf_sample_mid]
  simp [serializeList, serialize_priceResult, JSNum.toJson, e0, e1]

/-! ## The in-memory history -/

/-- Counterexample to C6: after 51 accepted calls on a fresh page the in-memory history has 51
entries, and the 51st call hands all 51 to the history display. -/
theorem inMemory_exceeds_fifty :
    (inMemoryEntries (generateAll isoString (freshPage none)
      (List.replicate 51 ⟨.fin 100, 1 / 2, 0, false⟩))).length = 51 ∧
    (generatePrice isoString
      (generateAll isoString (freshPage none) (List.replicate 50 ⟨.fin 100, 1 / 2, 0, false⟩))
      ⟨.fin 100, 1 / 2, 0, false⟩).effects =
      [.showResult (priceResult 0 (.fin 100) (.fin 250) "2.5x Original Price (60%)"),
        .showHistory (.arr (List.replicate 51
          (priceResult 0 (.fin 100) (.fin 250) "2.5x Original Price (60%)")))] := by
  have hi : rejects (Inputs.mk (.fin 100) (1 / 2) 0 false).parsed = false ∧
      (Inputs.mk (.fin 100) (1 / 2) 0 false).setItemThrows = false :=
    ⟨rejects_fin_pos (by norm_num), rfl⟩
  constructor
  · rw [freshPage, generateAll_of_accept isoString _ [] none (accept_replicate 51 _ hi)]
    simp [inMemoryEntries]
  · rw [freshPage, generateAll_of_accept isoString _ [] none (accept_replicate 50 _ hi),
      generatePrice_effects_of_accept isoString _ _ _ hi.1 hi.2]
    simp only [List.map_replicate, List.reverse_replicate, List.append_nil, resultOf_sample]
    rfl

/-- C6, as amended: the in-memory history is not capped.  From any loaded list, after any
number of accepted calls whose write succeeds, one more such call leaves the in-memory list
one entry longer, nothing removed; the list handed to the history display is that whole
list; only the persisted copy is cut to its first 50 entries. -/
theorem inMemory_grows (toISOString : Int → String) (loaded : List JSVal)
    (storage : Option Stored) (inputs : List Inputs) (i : Inputs)
    (hacc : ∀ j ∈ inputs, rejects j.parsed = false ∧ j.setItemThrows = false)
    (hi : rejects i.parsed = false ∧ i.setItemThrows = false) :
    (generatePrice toISOString
        (generateAll toISOString ⟨.arr loaded, storage⟩ inputs) i).world.priceHistory =
      .arr (resultOf i :: ((inputs.map resultOf).reverse ++ loaded)) ∧
    (inMemoryEntries (generatePrice toISOString
        (generateAll toISOString ⟨.arr loaded, storage⟩ inputs) i).world).length =
      loaded.length + inputs.length + 1 ∧
    (generatePrice toISOString
        (generateAll toISOString ⟨.arr loaded, storage⟩ inputs) i).effects =
      [.showResult (resultOf i),
        .showHistory (.arr (resultOf i :: ((inputs.map resultOf).reverse ++ loaded)))] ∧
    persistedEntries (generatePrice toISOString
        (generateAll toISOString ⟨.arr loaded, storage⟩ inputs) i).world =
      serializeList toISOString
        ((resultOf i :: ((inputs.map resultOf).reverse ++ loaded)).take 50) ∧
    (persistedEntries (generatePrice toISOString
        (generateAll toISOString ⟨.arr loaded, storage⟩ inputs) i).world).length ≤ 50 := by
  rw [generateAll_of_accept toISOString inputs loaded storage hacc]
  have hw := generatePrice_world_of_accept toISOString ((inputs.map resultOf).reverse ++ loaded)
    (if inputs.isEmpty then storage
      else some (.json (.arr (serializeList toISOString
        (((inputs.map resultOf).reverse ++ loaded).take 50))))) i hi.1 hi.2
  have he := generatePrice_effects_of_accept toISOString
    ((inputs.map resultOf).reverse ++ loaded)
    (if inputs.isEmpty then storage
      else some (.json (.arr (serializeList toISOString
        (((inputs.map resultOf).reverse ++ loaded).take 50))))) i hi.1 hi.2
  rw [hw, he]
  refine ⟨rfl, ?_, rfl, rfl, ?_⟩
  · simp [inMemoryEntries]; omega
  · simp only [persistedEntries, serializeList_length, List.length_take]
    exact Nat.min_le_left _ _

/-- Witness of C6 as amended: a list of 50 loaded entries and one accepted call give an
in-memory history of 51 entries. -/
theorem inMemory_grows_witness :
    (inMemoryEntries (generatePrice isoString
        (generateAll isoString ⟨.arr (List.replicate 50 .null), none⟩ [])
        ⟨.fin 100, 1 / 2, 0, false⟩).world).length = 51 ∧
    (persistedEntries (generatePrice isoString
        (generateAll isoString ⟨.arr (List.replicate 50 .null), none⟩ [])
        ⟨.fin 100, 1 / 2, 0, false⟩).world).length ≤ 50 := by
  have h := inMemory_grows isoString (List.replicate 50 .null) none []
    ⟨.fin 100, 1 / 2, 0, false⟩ (by simp) ⟨rejects_fin_pos (by norm_num), rfl⟩
  refine ⟨?_, h.2.2.2.2⟩
  rw [h.2.1]
  simp

/-! ## Record, then load -/

/-- Counterexample to C7: the price `Infinity` passes the guard and is recorded with both
prices infinite, but the entry that a load right afterwards finds first has `null` for both
prices and a string for the timestamp; `window.onload` then ends with a `TypeError` raised by
`showHistory`. -/
theorem load_after_record_posInf :
    (generatePrice isoString (freshPage none) ⟨.posInf, 1 / 2, 0, false⟩).world.priceHistory =
      .arr [.obj [("timestamp", .date 0), ("originalPrice", .num .posInf),
        ("finalPrice", .num .posInf), ("appliedRule", .str "2.5x Original Price (60%)")]] ∧
    (onLoad (freshPage
      (generatePrice isoString (freshPage none)
        ⟨.posInf, 1 / 2, 0, false⟩).world.storage)).world.priceHistory =
      .arr [.obj [("timestamp", .str "1970-01-01T00:00:00.000Z"), ("originalPrice", .null),
        ("finalPrice", .null), ("appliedRule", .str "2.5x Original Price (60%)")]] ∧
    (onLoad (freshPage
      (generatePrice isoString (freshPage none)
        ⟨.posInf, 1 / 2, 0, false⟩).world.storage)).thrown = some .typeError := by
  have hr : resultOf ⟨.posInf, 1 / 2, 0, false⟩ =
      priceResult 0 .posInf .posInf "2.5x Original Price (60%)" := by
    have h1 : applyRule .posInf ((JSNum.fin (1 / 2)).mul (.fin 100)) =
        (.posInf, "2.5x Original Price (60%)") := by
      rw [mul_half_hundred, applyRule_high _ (by norm_num), posInf_mul_pos (by norm_num)]
    simp only [resultOf, h1]
  have e0 : isoString 0 = "1970-01-01T00:00:00.000Z" := by decide
  have hw := generatePrice_world_of_accept isoString [] none ⟨.posInf, 1 / 2, 0, false⟩
    rejects_posInf rfl
  rw [hr] at hw
  have hs : (generatePrice isoString (freshPage none) ⟨.posInf, 1 / 2, 0, false⟩).world.storage =
      some (.json (.arr [.obj [("timestamp", .str "1970-01-01T00:00:00.000Z"),
        ("originalPrice", .null), ("finalPrice", .null),
        ("appliedRule", .str "2.5x Original Price (60%)")]])) := by
    rw [freshPage, hw]
    simp [serializeList, serialize_priceResult, JSNum.toJson, e0]
  refine ⟨?_, ?_, ?_⟩
  · rw [freshPage, hw]; rfl
  · rw [hs, freshPage, onLoad_json_history]
    simp [Json.toJS, Json.toJSList, Json.toJSFields]
  · rw [hs]
    simp [freshPage, onLoad, Stored.truthy, jsonParse, Json.toJS, Json.toJSList,
      Json.toJSFields, showHistory, lengthIsZero, showEntries, showEntry, getProp, lookupLast,
      toText, convertible, toFixed, bind, Except.bind, pure, Except.pure]

/-- C7, as amended: for a finite price `p > 0` whose result has a finite `finalPrice`, any
prior history and a write that succeeds, loading the persisted value right after the call
yields a non-empty list whose first entry has the `originalPrice`, `finalPrice` and
`appliedRule` of the result just recorded, and whose `timestamp` is the ISO string of the
recorded time. -/
theorem load_after_record (toISOString : Int → String) (items : List JSVal)
    (storage : Option Stored) (p u f : ℚ) (now : Int) (hp : 0 < p)
    (hfin : (applyRule (.fin p) ((JSNum.fin u).mul (.fin 100))).1 = .fin f) :
    ∃ (rule : String) (rest : List JSVal),
      (generatePrice toISOString ⟨.arr items, storage⟩
        ⟨.fin p, u, now, false⟩).world.priceHistory =
          .arr (.obj [("timestamp", .date now), ("originalPrice", .num (.fin p)),
            ("finalPrice", .num (.fin f)), ("appliedRule", .str rule)] :: items) ∧
      (onLoad (freshPage (generatePrice toISOString ⟨.arr items, storage⟩
        ⟨.fin p, u, now, false⟩).world.storage)).world.priceHistory =
          .arr (.obj [("timestamp", .str (toISOString now)), ("originalPrice", .num (.fin p)),
            ("finalPrice", .num (.fin f)), ("appliedRule", .str rule)] :: rest) := by
  have hh : resultOf ⟨.fin p, u, now, false⟩ =
      priceResult now (.fin p) (.fin f)
        (applyRule (.fin p) ((JSNum.fin u).mul (.fin 100))).2 := by
    simp only [resultOf, hfin]
  have hw := generatePrice_world_of_accept toISOString items storage ⟨.fin p, u, now, false⟩
    (rejects_fin_pos hp) rfl
  rw [hh] at hw
  refine ⟨(applyRule (.fin p) ((JSNum.fin u).mul (.fin 100))).2,
    Json.toJSList (serializeList toISOString (items.take 49)), ?_, ?_⟩
  · rw [hw]; rfl
  · rw [hw, freshPage, onLoad_json_history]
    simp [serializeList, serialize_priceResult, JSNum.toJson, Json.toJS, Json.toJSList,
      Json.toJSFields]

/-- Witness of C7 as amended: the price 100 recorded on a fresh page with `Math.random()` at
0.5, final price 250, and loaded again. -/
theorem load_after_record_witness :
    ∃ (rule : String) (rest : List JSVal),
      (onLoad (freshPage (generatePrice isoString ⟨.arr [], none⟩
        ⟨.fin 100, 1 / 2, 0, false⟩).world.storage)).world.priceHistory =
          .arr (.obj [("timestamp", .str (isoString 0)), ("originalPrice", .num (.fin 100)),
            ("finalPrice", .num (.fin 250)), ("appliedRule", .str rule)] :: rest) := by
  obtain ⟨rule, rest, -, h⟩ :=
    load_after_record isoString [] none 100 (1 / 2) 250 0 (by norm_num)
      (by rw [mul_half_hundred, applyRule_high _ (by norm_num), mul_hundred_five_halves])
  exact ⟨rule, rest, h⟩

/-! ## Startup -/

/-- Counterexample to C8: with the stored text `not json`, which `JSON.parse` rejects,
`window.onload` ends with the `SyntaxError`: the error leaves the handler and the key
listener is never added. -/
theorem onLoad_malformed_throws :
    onLoad (freshPage (some (.malformed "not json"))) =
      { world := freshPage (some (.malformed "not json")), effects := [],
        thrown := some .syntaxError } := by
  simp [onLoad, freshPage, Stored.truthy, jsonParse]

/-- C8, as amended: with nothing stored (or the empty string stored) the history stays the
empty list and startup completes, adding the key listener.  A stored text that is not JSON
makes `JSON.parse` throw; the error leaves `window.onload`, the history stays empty, nothing is
discarded and the rest of startup is skipped.  A stored JSON document of any shape becomes
the history as parsed, and startup completes exactly when `showHistory` can render it. -/
theorem onLoad_by_storage :
    onLoad (freshPage none) =
      { world := freshPage none, effects := [.addKeypressListener], thrown := none } ∧
    onLoad (freshPage (some (.malformed ""))) =
      { world := freshPage (some (.malformed "")), effects := [.addKeypressListener],
        thrown := none } ∧
    (∀ text : String, text ≠ "" →
      onLoad (freshPage (some (.malformed text))) =
        { world := freshPage (some (.malformed text)), effects := [],
          thrown := some .syntaxError }) ∧
    (∀ doc : Json,
      (onLoad (freshPage (some (.json doc)))).world.priceHistory = doc.toJS ∧
      ((onLoad (freshPage (some (.json doc)))).thrown = none ↔
        showHistory doc.toJS = .ok ())) := by
  refine ⟨rfl, ?_, ?_, ?_⟩
  · simp [onLoad, freshPage, Stored.truthy]
  · intro text htext
    simp [onLoad, freshPage, Stored.truthy, jsonParse, htext]
  · intro doc
    exact ⟨onLoad_json_history _ doc, onLoad_json_thrown _ doc⟩

/-- Witness of C8 as amended: the stored text `x` and the stored document `5`. -/
theorem onLoad_by_storage_witness :
    onLoad (freshPage (some (.malformed "x"))) =
      { world := freshPage (some (.malformed "x")), effects := [],
        thrown := some .syntaxError } ∧
    (onLoad (freshPage (some (.json (.num 5))))).world.priceHistory = .num (.fin 5) :=
  ⟨onLoad_by_storage.2.2.1 "x" (by decide), (onLoad_by_storage.2.2.2 (.num 5)).1⟩

/-! ## A failing write -/

/-- Counterexample to C9: when `setItem` throws for the price 100 on a fresh page, the result
is in the in-memory history, but the exception ends `generatePrice`: neither `showResult` nor
`showHistory` is called. -/
theorem generatePrice_write_failure_propagates :
    generatePrice isoString (freshPage none) ⟨.fin 100, 1 / 2, 0, true⟩ =
      { world := ⟨.arr [priceResult 0 (.fin 100) (.fin 250) "2.5x Original Price (60%)"], none⟩,
        effects := [], thrown := some .storageError } := by
  have h1 : applyRule (.fin 100) ((JSNum.fin (1 / 2)).mul (.fin 100)) =
      (.fin 250, "2.5x Original Price (60%)") := by
    rw [mul_half_hundred, applyRule_high _ (by norm_num), mul_hundred_five_halves]
  have hacc : rejects (.fin 100) = false := rejects_fin_pos (by norm_num)
  simp only [generatePrice, freshPage, hacc, h1]
  simp

/-- C9, as amended: for a price `p > 0` and any draw, when `setItem` throws, `generatePrice`
has computed the result and put it at the head of the in-memory history, the persisted value is
what it was, the exception leaves `generatePrice`, and neither display function is called. -/
theorem generatePrice_write_failure (toISOString : Int → String) (items : List JSVal)
    (storage : Option Stored) (p u : ℚ) (now : Int) (hp : 0 < p) :
    generatePrice toISOString ⟨.arr items, storage⟩ ⟨.fin p, u, now, true⟩ =
      { world := ⟨.arr (resultOf ⟨.fin p, u, now, true⟩ :: items), storage⟩,
        effects := [], thrown := some .storageError } ∧
    ∃ (finalPrice : JSNum) (rule : String),
      resultOf ⟨.fin p, u, now, true⟩ = priceResult now (.fin p) finalPrice rule ∧
      (finalPrice = .fin p ∨ finalPrice = (JSNum.fin p).mul (.fin (3 / 2)) ∨
        finalPrice = (JSNum.fin p).mul (.fin (5 / 2))) := by
  have hacc : rejects (.fin p) = false := rejects_fin_pos hp
  constructor
  · simp only [generatePrice, hacc, resultOf]
    simp only [Bool.false_eq_true, if_false, if_true]
  · exact resultOf_of_pos p u now true

/-- Witness of C9 as amended: the price 8 against a history of one entry. -/
theorem generatePrice_write_failure_witness :
    generatePrice isoString ⟨.arr [.null], none⟩ ⟨.fin 8, 1 / 4, 0, true⟩ =
      { world := ⟨.arr [resultOf ⟨.fin 8, 1 / 4, 0, true⟩, .null], none⟩,
        effects := [], thrown := some .storageError } :=
  (generatePrice_write_failure isoString [.null] none 8 (1 / 4) 0 (by norm_num)).1

/-! ## The draw intervals -/

/-- C10: over the draw range `[0, 100)` the three branches of `generatePrice` are taken, for
a finite draw `r`, on
exactly the intervals `[0, 0.1)`, `[0.1, 40)` and `[40, 100)`, which are pairwise disjoint and
cover the range; their lengths are 0.1, 39.9 and 60, summing to 100, so that the shares of
the range are 0.1%, 39.9% and 60%, the percentages written in the rule labels. -/
theorem draw_intervals (n : JSNum) :
    {r : ℚ | r ∈ Set.Ico 0 100 ∧ applyRule n (.fin r) = (n, "Original Price (0.1%)")} =
      Set.Ico 0 (1 / 10) ∧
    {r : ℚ | r ∈ Set.Ico 0 100 ∧
        applyRule n (.fin r) = (n.mul (.fin (3 / 2)), "1.5x Original Price (39.9%)")} =
      Set.Ico (1 / 10) 40 ∧
    {r : ℚ | r ∈ Set.Ico 0 100 ∧
        applyRule n (.fin r) = (n.mul (.fin (5 / 2)), "2.5x Original Price (60%)")} =
      Set.Ico 40 100 ∧
    Disjoint (Set.Ico (0 : ℚ) (1 / 10)) (Set.Ico (1 / 10) 40) ∧
    Disjoint (Set.Ico (0 : ℚ) (1 / 10)) (Set.Ico 40 100) ∧
    Disjoint (Set.Ico (1 / 10 : ℚ) 40) (Set.Ico 40 100) ∧
    Set.Ico (0 : ℚ) (1 / 10) ∪ Set.Ico (1 / 10) 40 ∪ Set.Ico 40 100 = Set.Ico 0 100 ∧
    ((1 / 10 : ℚ) - 0 = 0.1 ∧ (40 : ℚ) - 1 / 10 = 39.9 ∧ (100 : ℚ) - 40 = 60) ∧
    ((1 / 10 : ℚ) - 0) + ((40 : ℚ) - 1 / 10) + ((100 : ℚ) - 40) = 100 ∧
    (((1 / 10 : ℚ) - 0) / 100 = 0.1 / 100 ∧ ((40 : ℚ) - 1 / 10) / 100 = 39.9 / 100 ∧
      ((100 : ℚ) - 40) / 100 = 60 / 100) := by
  have hlt : (1 : ℚ) / 10 < 40 := by norm_num
  have hlt2 : (40 : ℚ) < 100 := by norm_num
  refine ⟨?_, ?_, ?_, ?_, ?_, ?_, ?_, ?_, ?_, ?_⟩
  · ext r
    simp only [Set.mem_setOf_eq, Set.mem_Ico]
    constructor
    · rintro ⟨⟨h0, -⟩, h⟩
      refine ⟨h0, ?_⟩
      by_contra hn
      by_cases h2 : r < 40
      · rw [applyRule_mid n (not_lt.mp hn) h2] at h
        simp at h
      · rw [applyRule_high n (not_lt.mp h2)] at h
        simp at h
    · rintro ⟨h0, h1⟩
      exact ⟨⟨h0, lt_trans h1 (lt_trans hlt hlt2)⟩, applyRule_low n h1⟩
  · ext r
    simp only [Set.mem_setOf_eq, Set.mem_Ico]
    constructor
    · rintro ⟨⟨-, -⟩, h⟩
      by_cases h1 : r < 1 / 10
      · rw [applyRule_low n h1] at h
        simp at h
      · by_cases h2 : r < 40
        · exact ⟨not_lt.mp h1, h2⟩
        · rw [applyRule_high n (not_lt.mp h2)] at h
          simp at h
    · rintro ⟨h1, h2⟩
      exact ⟨⟨le_trans (by norm_num) h1, lt_trans h2 hlt2⟩, applyRule_mid n h1 h2⟩
  · ext r
    simp only [Set.mem_setOf_eq, Set.mem_Ico]
    constructor
    · rintro ⟨⟨-, h100⟩, h⟩
      by_cases h1 : r < 1 / 10
      · rw [applyRule_low n h1] at h
        simp at h
      · by_cases h2 : r < 40
        · rw [applyRule_mid n (not_lt.mp h1) h2] at h
          simp at h
        · exact ⟨not_lt.mp h2, h100⟩
    · rintro ⟨h1, h2⟩
      exact ⟨⟨le_trans (by norm_num) h1, h2⟩, applyRule_high n h1⟩
  · rw [Set.disjoint_left]
    intro r hr hr2
    exact absurd hr.2 (not_lt.mpr hr2.1)
  · rw [Set.disjoint_left]
    intro r hr hr2
    exact absurd (lt_trans hr.2 hlt) (not_lt.mpr hr2.1)
  · rw [Set.disjoint_left]
    intro r hr hr2
    exact absurd hr.2 (not_lt.mpr hr2.1)
  · rw [Set.Ico_union_Ico_eq_Ico (by norm_num) hlt.le, Set.Ico_union_Ico_eq_Ico (by norm_num)
      hlt2.le]
  · norm_num
  · norm_num
  · norm_num

end RandomPrices
